import Mathlib

/-!
Verification of the code-generation and module-resolution utilities of the
grumpy compiler (compiler/util.py), as a shallow embedding in Lean 4.

Strings of the source language are modelled by Lean `String` (a wrapper
around `List Char`, one entry per unicode code point, matching the Python 2
`unicode` strings this module manipulates under
`from __future__ import unicode_literals`).  Python string primitives that
the source uses — `split`, `count`, `startswith`, slicing, `%` / `format`
interpolation — are re-implemented below as small structurally recursive
functions on `List Char` so that every definition is executable and
kernel-reducible.  Raised exceptions are modelled with `Except`, and the
filesystem consulted by `os.path.isfile` is an explicit predicate
`String → Bool` passed as a parameter.
-/

/-- Build a `String` from a list of characters (inverse of `String.data`). -/
def mkStr (cs : List Char) : String := ⟨cs⟩

/-- Python `s.split(sep)` for a one-character separator: greedy split on
every occurrence, keeping empty pieces (`"".split` gives `[""]`). -/
def splitOnChar (sep : Char) : List Char → List (List Char)
  | [] => [[]]
  | c :: r =>
    if c = sep then [] :: splitOnChar sep r
    else
      match splitOnChar sep r with
      | [] => [[c]]
      | h :: t => (c :: h) :: t

/-- Python `s.count(sub)` for the one-character substring `'.'`. -/
def countDots (s : String) : Nat := s.data.count '.'

/-- Python `s.startswith(pre)`. -/
def strStarts (pre s : String) : Bool := pre.data.isPrefixOf s.data

/-- Python slicing `s[n:]`. -/
def strDrop (n : Nat) (s : String) : String := ⟨s.data.drop n⟩

/-- The character set `_SIMPLE_CHARS` of compiler/util.py:
`set(string.digits + string.letters + string.punctuation + " ")` under the
C locale, i.e. the 95 printable ASCII characters (space included). -/
def _SIMPLE_CHARS : List Char :=
  ("0123456789" ++
   "abcdefghijklmnopqrstuvwxyzABCDEFGHIJKLMNOPQRSTUVWXYZ" ++
   "!\"#$%&'()*+,-./:;<=>?@[\\]^_`\x7b|\x7d~" ++
   " ").data

/-- The escape dictionary `_ESCAPES` of compiler/util.py, as an association
list: tab, carriage return, line feed, double quote and backslash map to
their canonical two-character escapes. -/
def _ESCAPES : List (Char × String) :=
  [('\t', "\\t"), ('\r', "\\r"), ('\n', "\\n"), ('"', "\\\""), ('\\', "\\\\")]

/-- Dictionary lookup `_ESCAPES[c]` (as `Option`; the source guards the
access with `c in _ESCAPES`). -/
def lookupEsc (c : Char) : Option String :=
  (_ESCAPES.find? (fun p => p.1 == c)).map (fun p => p.2)

/-- Little-endian base-`base` digits of `n`, with explicit structural fuel
(`fuel ≥ n` makes the result exact, and every call below uses `fuel = n`). -/
def natToRevDigits (base : Nat) : Nat → Nat → List Nat
  | 0, _ => []
  | fuel + 1, n => if n = 0 then [] else (n % base) :: natToRevDigits base fuel (n / base)

/-- Lowercase hexadecimal digit character, as produced by Python `{:x}`. -/
def hexCh (d : Nat) : Char :=
  if d < 10 then Char.ofNat (48 + d) else Char.ofNat (87 + d)

/-- Decimal digit character, as produced by Python `str` on an integer. -/
def decCh (d : Nat) : Char := Char.ofNat (48 + d)

/-- Python `'{:02x}'.format(n)`: minimal lowercase hex digits of `n`,
zero-padded on the left to at least two digits. -/
def hexEsc (n : Nat) : List Char :=
  let ds := ((natToRevDigits 16 n n).reverse).map hexCh
  if ds.length = 0 then ['0', '0']
  else if ds.length = 1 then '0' :: ds
  else ds

/-- Python `str(n)` for a natural number. -/
def natStr (n : Nat) : String :=
  if n = 0 then "0" else ⟨((natToRevDigits 10 n n).reverse).map decCh⟩

/-- The body of the loop of `go_str` in compiler/util.py: the chunk of
characters written for one input character `c`.  The `_ESCAPES` table is
consulted first, then `_SIMPLE_CHARS` membership, and every remaining
character becomes a `\xNN` escape of its code point. -/
def go_str_char (c : Char) : List Char :=
  match lookupEsc c with
  | some e => e.data
  | none =>
    if _SIMPLE_CHARS.contains c then [c]
    else '\\' :: 'x' :: hexEsc c.toNat

/-- `go_str` of compiler/util.py: a double quote, the escaped chunks of the
characters of `value` in order, and a closing double quote (the sequential
`StringIO` writes of the source concatenate to exactly this list). -/
def go_str (value : String) : String :=
  ⟨'"' :: (value.data.map go_str_char).flatten ++ ['"']⟩

/-- Hexadecimal digit value of a character under the standard escape
conventions (`0-9`, `a-f`, `A-F`), or `none`. -/
def hexVal (c : Char) : Option Nat :=
  if 48 ≤ c.toNat ∧ c.toNat ≤ 57 then some (c.toNat - 48)
  else if 97 ≤ c.toNat ∧ c.toNat ≤ 102 then some (c.toNat - 87)
  else if 65 ≤ c.toNat ∧ c.toNat ≤ 70 then some (c.toNat - 55)
  else none

/-- Decoder for the interior of a quoted literal under the standard escape
meanings: `\t \r \n \" \\` denote the five specially escaped characters,
`\xHH` denotes the code point `HH`, a backslash followed by anything else is
rejected, and every other character denotes itself. -/
def unescape : List Char → Option (List Char)
  | [] => some []
  | '\\' :: 't' :: r => (unescape r).map (fun l => '\t' :: l)
  | '\\' :: 'r' :: r => (unescape r).map (fun l => '\r' :: l)
  | '\\' :: 'n' :: r => (unescape r).map (fun l => '\n' :: l)
  | '\\' :: '"' :: r => (unescape r).map (fun l => '"' :: l)
  | '\\' :: '\\' :: r => (unescape r).map (fun l => '\\' :: l)
  | '\\' :: 'x' :: h1 :: h2 :: r =>
    match hexVal h1, hexVal h2 with
    | some a, some b => (unescape r).map (fun l => Char.ofNat (16 * a + b) :: l)
    | _, _ => none
  | '\\' :: _ => none
  | c :: r => (unescape r).map (fun l => c :: l)

/-- Scanner for the interior of a one-line quoted literal: every backslash
must begin one of the escape forms the generator emits (`\t \r \n \" \\`
or `\x…`), and outside of those escape heads no raw double quote, line
feed or carriage return may occur.  A `true` verdict means the interior
parses as a single closed literal on one line. -/
def interiorScan : List Char → Bool
  | [] => true
  | '\\' :: e :: r =>
    (e == 't' || e == 'r' || e == 'n' || e == '"' || e == '\\' || e == 'x') &&
      interiorScan r
  | ['\\'] => false
  | c :: r => !(c == '"' || c == '\n' || c == '\r') && interiorScan r

/-! ## Helper lemmas about the escape tables -/

/-- Every code point in 32..126 is a `_SIMPLE_CHARS` member. -/
theorem simple_contains_of_range :
    ∀ n, n < 127 → 32 ≤ n → _SIMPLE_CHARS.contains (Char.ofNat n) = true := by decide

/-- Printable-ASCII-or-space characters belong to `_SIMPLE_CHARS`. -/
theorem mem_simple (c : Char) (h1 : 32 ≤ c.toNat) (h2 : c.toNat ≤ 126) :
    _SIMPLE_CHARS.contains c = true := by
  have h := simple_contains_of_range c.toNat (by omega) h1
  rwa [Char.ofNat_toNat] at h

/-- A printable character other than the double quote and the backslash is
not in the `_ESCAPES` table. -/
theorem lookupEsc_eq_none (c : Char) (h1 : 32 ≤ c.toNat) (h4 : c ≠ '"') (h5 : c ≠ '\\') :
    lookupEsc c = none := by
  have ht : c ≠ '\t' := by intro e; subst e; exact absurd h1 (by decide)
  have hr : c ≠ '\r' := by intro e; subst e; exact absurd h1 (by decide)
  have hn : c ≠ '\n' := by intro e; subst e; exact absurd h1 (by decide)
  have bt : ('\t' == c) = false := beq_eq_false_iff_ne.mpr (Ne.symm ht)
  have br : ('\r' == c) = false := beq_eq_false_iff_ne.mpr (Ne.symm hr)
  have bn : ('\n' == c) = false := beq_eq_false_iff_ne.mpr (Ne.symm hn)
  have bq : ('"' == c) = false := beq_eq_false_iff_ne.mpr (Ne.symm h4)
  have bb : ('\\' == c) = false := beq_eq_false_iff_ne.mpr (Ne.symm h5)
  simp [lookupEsc, _ESCAPES, List.find?, bt, br, bn, bq, bb]

/-- The character class of claim C8: printable ASCII (space included) or one
of tab, carriage return, line feed (quote and backslash are printable). -/
def goodC8 (c : Char) : Prop :=
  (32 ≤ c.toNat ∧ c.toNat ≤ 126) ∨ c = '\t' ∨ c = '\r' ∨ c = '\n'

/-- Decoding one emitted chunk recovers the character that produced it. -/
theorem unescape_chunk (c : Char) (hc : goodC8 c) (r : List Char) :
    unescape (go_str_char c ++ r) = (unescape r).map (fun l => c :: l) := by
  rcases hc with ⟨h1, h2⟩ | h | h | h
  · by_cases hq : c = '"'
    · subst hq
      show unescape ('\\' :: '"' :: r) = _
      simp [unescape]
    · by_cases hb : c = '\\'
      · subst hb
        show unescape ('\\' :: '\\' :: r) = _
        simp [unescape]
      · have hesc : lookupEsc c = none := lookupEsc_eq_none c h1 hq hb
        have hsimp : _SIMPLE_CHARS.contains c = true := mem_simple c h1 h2
        have hgc : go_str_char c = [c] := by
          simp [go_str_char, hesc, List.mem_of_elem_eq_true hsimp]
        rw [hgc]
        show unescape (c :: r) = _
        simp [unescape, hb]
  · subst h; show unescape ('\\' :: 't' :: r) = _; simp [unescape]
  · subst h; show unescape ('\\' :: 'r' :: r) = _; simp [unescape]
  · subst h; show unescape ('\\' :: 'n' :: r) = _; simp [unescape]

/-- Decoding the concatenated chunks of a good string recovers the string. -/
theorem unescape_flatten (l : List Char) (h : ∀ c ∈ l, goodC8 c) :
    unescape ((l.map go_str_char).flatten) = some l := by
  induction l with
  | nil => rfl
  | cons c t ih =>
    have hc := h c (List.mem_cons_self c t)
    have ht : ∀ x ∈ t, goodC8 x := fun x hx => h x (List.mem_cons_of_mem c hx)
    simp only [List.map_cons, List.flatten_cons]
    rw [unescape_chunk c hc, ih ht]
    rfl

/-- C8: for every string made only of printable ASCII characters, spaces,
and the specially escaped characters (tab, carriage return, line feed,
double quote, backslash), `go_str` is lossless — unescaping the interior of
the produced quoted literal under the standard escape meanings recovers the
original string exactly. -/
theorem c8_go_str_lossless (s : String)
    (h : ∀ c ∈ s.data, (32 ≤ c.toNat ∧ c.toNat ≤ 126) ∨ c = '\t' ∨ c = '\r' ∨ c = '\n') :
    unescape (((go_str s).data.drop 1).dropLast) = some s.data := by
  have hd : (go_str s).data = '"' :: ((s.data.map go_str_char).flatten ++ ['"']) := rfl
  rw [hd]
  simp only [List.drop_succ_cons, List.drop_zero, List.dropLast_concat]
  exact unescape_flatten s.data h

/-- Witness for C8 at the concrete string `He said: "a\b"<LF><TAB>ok<CR>`. -/
theorem c8_go_str_lossless_witness :
    unescape (((go_str "He said: \"a\\b\"\n\tok\r").data.drop 1).dropLast) =
      some "He said: \"a\\b\"\n\tok\r".data :=
  c8_go_str_lossless "He said: \"a\\b\"\n\tok\r" (by decide)

/-! ## C10: the emitted literal is always closed and one-line -/

/-- Digits produced by `natToRevDigits` are valid base-`base` digits. -/
theorem natToRevDigits_lt (base : Nat) (hb : 0 < base) :
    ∀ fuel n d, d ∈ natToRevDigits base fuel n → d < base := by
  intro fuel
  induction fuel with
  | zero => intro n d hd; simp [natToRevDigits] at hd
  | succ f ih =>
    intro n d hd
    by_cases hn : n = 0
    · simp [natToRevDigits, hn] at hd
    · rw [natToRevDigits] at hd
      simp [hn] at hd
      rcases hd with hd | hd
      · subst hd; exact Nat.mod_lt n hb
      · exact ih (n / base) d hd

/-- A `contains` verdict of `false` means non-membership. -/
theorem not_mem_of_contains_false (l : List Char) (c : Char) (h : l.contains c = false) :
    c ∉ l := by
  intro hm
  have h2 : List.elem c l = false := h
  rw [List.elem_eq_true_of_mem hm] at h2
  simp at h2

/-- A character is inert for `interiorScan`: not a backslash, and not one of
the three characters the scanner rejects in ordinary position. -/
def scanInert (c : Char) : Prop :=
  c ≠ '\\' ∧ (c == '"' || c == '\n' || c == '\r') = false

/-- Hexadecimal digit characters are inert. -/
theorem hexCh_inert (d : Nat) (hd : d < 16) : scanInert (hexCh d) := by
  interval_cases d <;> exact ⟨by decide, by decide⟩

/-- Every character of a `\xNN` escape's digit part is inert. -/
theorem hexEsc_inert (n : Nat) : ∀ c ∈ hexEsc n, scanInert c := by
  intro c hc
  have hds : ∀ x ∈ ((natToRevDigits 16 n n).reverse).map hexCh, scanInert x := by
    intro x hx
    rcases List.mem_map.mp hx with ⟨d, hd, hdx⟩
    subst hdx
    exact hexCh_inert d (natToRevDigits_lt 16 (by omega) n n d (List.mem_reverse.mp hd))
  rw [hexEsc] at hc
  split at hc
  · simp at hc
    subst hc
    exact ⟨by decide, by decide⟩
  · split at hc
    · rcases List.mem_cons.mp hc with hc | hc
      · subst hc; exact ⟨by decide, by decide⟩
      · exact hds c hc
    · exact hds c hc

/-- Scanning a run of inert characters just passes over them. -/
theorem interiorScan_inert_append (ds : List Char) (hds : ∀ c ∈ ds, scanInert c) (r : List Char) :
    interiorScan (ds ++ r) = interiorScan r := by
  induction ds with
  | nil => rfl
  | cons d t ih =>
    have hd := hds d (List.mem_cons_self d t)
    have ht : ∀ c ∈ t, scanInert c := fun c hc => hds c (List.mem_cons_of_mem d hc)
    rw [List.cons_append]
    rw [show interiorScan (d :: (t ++ r)) =
          (!(d == '"' || d == '\n' || d == '\r') && interiorScan (t ++ r)) from by
      simp [interiorScan, hd.1]]
    rw [hd.2, ih ht]
    simp

/-- A character outside the five-entry escape table has no table entry. -/
theorem lookupEsc_none_of_notin (c : Char) (h1 : c ≠ '\t') (h2 : c ≠ '\r') (h3 : c ≠ '\n')
    (h4 : c ≠ '"') (h5 : c ≠ '\\') : lookupEsc c = none := by
  have bt : ('\t' == c) = false := beq_eq_false_iff_ne.mpr (Ne.symm h1)
  have br : ('\r' == c) = false := beq_eq_false_iff_ne.mpr (Ne.symm h2)
  have bn : ('\n' == c) = false := beq_eq_false_iff_ne.mpr (Ne.symm h3)
  have bq : ('"' == c) = false := beq_eq_false_iff_ne.mpr (Ne.symm h4)
  have bb : ('\\' == c) = false := beq_eq_false_iff_ne.mpr (Ne.symm h5)
  simp [lookupEsc, _ESCAPES, List.find?, bt, br, bn, bq, bb]

/-- Scanning one emitted chunk always succeeds and passes to the rest. -/
theorem interiorScan_chunk (c : Char) (r : List Char) :
    interiorScan (go_str_char c ++ r) = interiorScan r := by
  by_cases ht : c = '\t'
  · subst ht; show interiorScan ('\\' :: 't' :: r) = _; simp [interiorScan]
  · by_cases hr : c = '\r'
    · subst hr; show interiorScan ('\\' :: 'r' :: r) = _; simp [interiorScan]
    · by_cases hn : c = '\n'
      · subst hn; show interiorScan ('\\' :: 'n' :: r) = _; simp [interiorScan]
      · by_cases hq : c = '"'
        · subst hq; show interiorScan ('\\' :: '"' :: r) = _; simp [interiorScan]
        · by_cases hb : c = '\\'
          · subst hb; show interiorScan ('\\' :: '\\' :: r) = _; simp [interiorScan]
          · have hesc : lookupEsc c = none := lookupEsc_none_of_notin c ht hr hn hq hb
            have hin : scanInert c := by
              refine ⟨hb, ?_⟩
              have q : (c == '"') = false := beq_eq_false_iff_ne.mpr hq
              have n' : (c == '\n') = false := beq_eq_false_iff_ne.mpr hn
              have r' : (c == '\r') = false := beq_eq_false_iff_ne.mpr hr
              simp [q, n', r']
            by_cases hs : _SIMPLE_CHARS.contains c
            · have hgc : go_str_char c = [c] := by
                simp [go_str_char, hesc, List.mem_of_elem_eq_true hs]
              rw [hgc]
              exact interiorScan_inert_append [c]
                (by intro x hx; simp at hx; subst hx; exact hin) r
            · have hs' : c ∉ _SIMPLE_CHARS :=
                not_mem_of_contains_false _SIMPLE_CHARS c (by simpa using hs)
              have hgc : go_str_char c = '\\' :: 'x' :: hexEsc c.toNat := by
                simp [go_str_char, hesc, hs']
              rw [hgc]
              rw [show ('\\' :: 'x' :: hexEsc c.toNat) ++ r =
                    '\\' :: 'x' :: (hexEsc c.toNat ++ r) from by simp]
              rw [show interiorScan ('\\' :: 'x' :: (hexEsc c.toNat ++ r)) =
                    interiorScan (hexEsc c.toNat ++ r) from by simp [interiorScan]]
              exact interiorScan_inert_append (hexEsc c.toNat) (hexEsc_inert c.toNat) r

/-- Scanning the whole emitted interior always succeeds. -/
theorem interiorScan_flatten (l : List Char) :
    interiorScan ((l.map go_str_char).flatten) = true := by
  induction l with
  | nil => rfl
  | cons c t ih =>
    simp only [List.map_cons, List.flatten_cons]
    rw [interiorScan_chunk, ih]

/-- C10: for every input string, `go_str` returns a value that begins and
ends with a double quote and whose interior scans as a single closed
one-line literal (no raw quote, no raw backslash, no line break); the
escape table takes precedence over the printable pass-through set (quote
and backslash, although in `_SIMPLE_CHARS`, are escaped), and every
character in neither set is rendered as a backslash-x hex escape. -/
theorem c10_go_str_closed (s : String) :
    (go_str s).data.head? = some '"'
    ∧ (go_str s).data.getLast? = some '"'
    ∧ interiorScan (((go_str s).data.drop 1).dropLast) = true
    ∧ lookupEsc '"' = some "\\\"" ∧ lookupEsc '\\' = some "\\\\"
    ∧ _SIMPLE_CHARS.contains '"' = true ∧ _SIMPLE_CHARS.contains '\\' = true
    ∧ (∀ c, lookupEsc c = none → _SIMPLE_CHARS.contains c = false →
        go_str_char c = '\\' :: 'x' :: hexEsc c.toNat) := by
  refine ⟨rfl, ?_, ?_, by decide, by decide, by decide, by decide, ?_⟩
  · have hd : (go_str s).data = ('"' :: (s.data.map go_str_char).flatten) ++ ['"'] := by
      show '"' :: ((s.data.map go_str_char).flatten ++ ['"']) = _
      simp
    rw [hd, List.getLast?_concat]
  · have hd : (go_str s).data = '"' :: ((s.data.map go_str_char).flatten ++ ['"']) := rfl
    rw [hd]
    simp only [List.drop_succ_cons, List.drop_zero, List.dropLast_concat]
    exact interiorScan_flatten s.data
  · intro c h1 h2
    have h2' : c ∉ _SIMPLE_CHARS := not_mem_of_contains_false _SIMPLE_CHARS c h2
    simp [go_str_char, h1, h2']

/-- Witness for C10's conditional conjunct at the concrete character `\x01`:
a character in neither table is rendered as a two-digit hex escape. -/
theorem c10_go_str_closed_witness :
    go_str_char (Char.ofNat 1) = '\\' :: 'x' :: hexEsc (Char.ofNat 1).toNat :=
  (c10_go_str_closed "").2.2.2.2.2.2.2 (Char.ofNat 1) (by decide) (by decide)


/-! ## The Writer class of compiler/util.py -/

namespace Grumpy

/-- The `Writer` state: the output buffer (one entry per emitted line, each
already carrying its indentation; the underlying `cStringIO` buffer is the
newline-join of these lines) and the current `indent_level`.  The level is
an `Int` because `indent_block(-1)` in `write_block` drives it below the
ambient level. -/
structure Writer where
  out : List String
  indent_level : Int
deriving DecidableEq

/-- Python `'\t' * n` (negative counts give the empty string). -/
def tabStr (l : Int) : String := ⟨List.replicate l.toNat '\t'⟩

/-- `Writer.write`: split the output on line feeds, drop empty lines, and
emit every remaining line prefixed by `indent_level` tabs. -/
def Writer.write (w : Writer) (output : String) : Writer :=
  { w with
    out := w.out ++
      (((splitOnChar '\n' output.data).map mkStr).filter (fun l => l != "")).map
        (fun line => tabStr w.indent_level ++ line) }

/-- `Writer.indent`. -/
def Writer.indent (w : Writer) (n : Int) : Writer :=
  { w with indent_level := w.indent_level + n }

/-- `Writer.dedent`. -/
def Writer.dedent (w : Writer) (n : Int) : Writer :=
  { w with indent_level := w.indent_level - n }

/-- The statement `with w.indent_block(n): body`, under the semantics of the
source's `contextlib.contextmanager` generator (which has no try/finally):
indent by `n`, run the body, and dedent by `n` only when the body finishes
normally — an exception (`some e`) propagates before the generator's
`dedent` line is reached, so the writer keeps the body's final level. -/
def Writer.indent_block_with {ε : Type} (n : Int) (body : Writer → Writer × Option ε)
    (w : Writer) : Writer × Option ε :=
  match body (w.indent n) with
  | (w2, none) => (w2.dedent n, none)
  | (w2, some e) => (w2, some e)

/-- A fresh writer, as built by `Writer.__init__`. -/
def writer0 : Writer := ⟨[], 0⟩

/-- Counterexample to C2 as stated: a region whose body raises (writing
nothing) leaves the depth at the entered level `1`, not at the prior
level `0` — the context manager has no try/finally, so the `dedent` after
`yield` is skipped on the exceptional exit path. -/
theorem c2_indent_restore_counterexample :
    ¬ ((Writer.indent_block_with 1 (fun v => (v, some ())) writer0).1.indent_level
        = writer0.indent_level) := by decide

/-- C2 as amended: for every writer and every `indent_block` region whose
body is depth-balanced, the depth after leaving the region equals the depth
before entering it on every NORMAL exit path (including when zero lines are
written inside); when the region is terminated early by an exception, the
depth is not restored — it stays at the entered (incremented) level. -/
theorem c2_indent_block_restores {ε : Type} (w : Writer) (n : Int)
    (body : Writer → Writer × Option ε)
    (hbal : ∀ v, ((body v).1).indent_level = v.indent_level) :
    ((Writer.indent_block_with n body w).2 = none →
      (Writer.indent_block_with n body w).1.indent_level = w.indent_level)
    ∧ ((Writer.indent_block_with n body w).2 ≠ none →
      (Writer.indent_block_with n body w).1.indent_level = w.indent_level + n) := by
  have hlvl : ((body (w.indent n)).1).indent_level = w.indent_level + n := hbal (w.indent n)
  rcases hres : body (w.indent n) with ⟨w2, _ | e⟩
  · rw [hres] at hlvl
    constructor
    · intro _
      simp only [Writer.indent_block_with, hres, Writer.dedent]
      simp at hlvl
      omega
    · intro hsome
      simp [Writer.indent_block_with, hres] at hsome
  · rw [hres] at hlvl
    constructor
    · intro hnone
      simp [Writer.indent_block_with, hres] at hnone
    · intro _
      simp only [Writer.indent_block_with, hres]
      simpa using hlvl

/-- Witness for C2's amended statement: a balanced body that writes one line
and exits normally restores the prior depth `0`. -/
theorem c2_indent_block_restores_witness :
    (Writer.indent_block_with 2 (fun v => ((v.write "x", (none : Option Unit)))) writer0).1.indent_level
      = writer0.indent_level :=
  (c2_indent_block_restores writer0 2 (fun v => (v.write "x", none)) (fun _ => rfl)).1 rfl

end Grumpy

/-! ## write_block and its dispatch structure (C3), write_import_block (C9) -/

namespace Grumpy

/-- Python `s.split('\n')` followed by the blank-line filter of
`Writer.write`: the non-empty lines of `s`. -/
def splitLines (s : String) : List String :=
  ((splitOnChar '\n' s.data).map mkStr).filter (fun l => l != "")

/-- The lines `Writer.write` appends for output `s` at level `lvl`. -/
def linesAt (lvl : Int) (s : String) : List String :=
  (splitLines s).map (fun line => tabStr lvl ++ line)

/-- `Writer.write_block`: the resumable-function wrapper.  The two uses of
`indent_block` in the source raise nothing inside their bodies, so they are
the plain indent/dedent bracketing below; `write_tmpl` with the template
`case $state: goto Label$state` is the inlined concatenation. -/
def Writer.write_block (w : Writer) (checkpoints : List Nat) (body : String) : Writer :=
  let w1 := w.write "var πE *πg.BaseException; _ = πE"
  let w2 := w1.write "for ; πF.State() >= 0; πF.PopCheckpoint() \x7b"
  let w3 := w2.indent 1
  let w4 := w3.write "switch πF.State() \x7b"
  let w5 := w4.write "case 0:"
  let w6 := checkpoints.foldl
    (fun acc cp => acc.write ("case " ++ natStr cp ++ ": goto Label" ++ natStr cp)) w5
  let w7 := w6.write "default: panic(\"unexpected function state\")"
  let w8 := w7.write "\x7d"
  let w9 := w8.indent (-1)
  let w10 := w9.write body
  let w11 := w10.dedent (-1)
  let w12 := w11.write "return nil, nil"
  let w13 := w12.dedent 1
  let w14 := w13.write "\x7d"
  w14.write "return nil, πE"

/-- Two strings with equal character data are equal. -/
theorem strExt (a b : String) (h : a.data = b.data) : a = b := by
  cases a; cases b; exact congrArg String.mk h

/-- Appending strings concatenates their character data. -/
theorem data_append (a b : String) : (a ++ b).data = a.data ++ b.data := rfl

/-- All characters of `natStr n` are decimal digits. -/
theorem natStr_digit (n : Nat) : ∀ c ∈ (natStr n).data, 48 ≤ c.toNat ∧ c.toNat ≤ 57 := by
  intro c hc
  by_cases hn : n = 0
  · subst hn
    simp [natStr] at hc
    subst hc
    exact ⟨by decide, by decide⟩
  · rw [natStr, if_neg hn] at hc
    rcases List.mem_map.mp hc with ⟨d, hd, hdc⟩
    subst hdc
    have hdlt : d < 10 :=
      natToRevDigits_lt 10 (by omega) n n d (List.mem_reverse.mp hd)
    interval_cases d <;> exact ⟨by decide, by decide⟩

/-- `natStr` never returns the empty string. -/
theorem natStr_ne_empty (n : Nat) : natStr n ≠ "" := by
  by_cases hn : n = 0
  · subst hn; decide
  · rw [natStr, if_neg hn]
    intro h
    have hd := congrArg String.data h
    rcases n with _ | f
    · exact hn rfl
    · rw [natToRevDigits] at hd
      simp [hn] at hd

/-- `natStr` never contains a line feed. -/
theorem natStr_no_nl (n : Nat) : '\n' ∉ (natStr n).data := by
  intro h
  have := natStr_digit n '\n' h
  simp at this

/-- The `case $state: goto Label$state` line for one checkpoint. -/
def caseLine (cp : Nat) : String := "case " ++ natStr cp ++ ": goto Label" ++ natStr cp

/-- Case lines contain no line feed. -/
theorem caseLine_no_nl (cp : Nat) : '\n' ∉ (caseLine cp).data := by
  intro h
  rw [caseLine] at h
  rw [data_append, data_append, data_append] at h
  rcases List.mem_append.mp h with h | h
  · rcases List.mem_append.mp h with h | h
    · rcases List.mem_append.mp h with h | h
      · simp at h
      · exact natStr_no_nl cp h
    · simp at h
  · exact natStr_no_nl cp h

/-- Case lines are non-empty. -/
theorem caseLine_ne_empty (cp : Nat) : caseLine cp ≠ "" := by
  intro h
  have hd := congrArg String.data h
  rw [caseLine, data_append, data_append, data_append] at hd
  simp at hd

/-- Splitting a separator-free list does not split. -/
theorem splitOnChar_single (sep : Char) (l : List Char) (h : sep ∉ l) :
    splitOnChar sep l = [l] := by
  induction l with
  | nil => rfl
  | cons c t ih =>
    have hcs : ¬ c = sep := fun e => h (e ▸ List.mem_cons_self c t)
    have ht : sep ∉ t := fun m => h (List.mem_cons_of_mem c m)
    rw [splitOnChar, if_neg hcs, ih ht]

/-- Writing one non-empty line-feed-free string emits exactly one line. -/
theorem linesAt_single (L : Int) (s : String) (h1 : '\n' ∉ s.data) (h2 : s ≠ "") :
    linesAt L s = [tabStr L ++ s] := by
  have hne : (s != "") = true := bne_iff_ne.mpr h2
  rw [linesAt, splitLines, splitOnChar_single '\n' s.data h1]
  show ([mkStr s.data].filter (fun l => l != "")).map (fun line => tabStr L ++ line) = _
  have : mkStr s.data = s := rfl
  rw [this]
  rw [List.filter_cons]
  simp [hne]

/-- The loop over checkpoints appends one case line per checkpoint. -/
theorem write_cases_foldl (cps : List Nat) (O : List String) (L : Int) :
    cps.foldl (fun acc cp => acc.write ("case " ++ natStr cp ++ ": goto Label" ++ natStr cp))
        (⟨O, L⟩ : Writer)
      = ⟨O ++ cps.map (fun cp => tabStr L ++ caseLine cp), L⟩ := by
  induction cps generalizing O with
  | nil => simp
  | cons cp t ih =>
    rw [List.foldl_cons]
    have hw : (Writer.write ⟨O, L⟩ ("case " ++ natStr cp ++ ": goto Label" ++ natStr cp))
        = ⟨O ++ [tabStr L ++ caseLine cp], L⟩ := by
      show (⟨O ++ linesAt L (caseLine cp), L⟩ : Writer) = _
      rw [linesAt_single L (caseLine cp) (caseLine_no_nl cp) (caseLine_ne_empty cp)]
    rw [hw, ih]
    simp

/-- Where the emitted switch sends control for a given frame state. -/
inductive GoTarget where
  | bodyTop : GoTarget
  | label : Nat → GoTarget
  | panicAbort : GoTarget
deriving DecidableEq

/-- The case list of the switch emitted by `write_block`, in textual order:
`case 0:` (empty arm: control leaves the switch and reaches the top of the
function body, since Go switch cases do not fall through) followed by
`case N: goto LabelN` for each checkpoint. -/
def switchCases (cps : List Nat) : List (Nat × GoTarget) :=
  (0, GoTarget.bodyTop) :: cps.map (fun n => (n, GoTarget.label n))

/-- Reading of the emitted switch: the textually first case whose value
matches the frame state wins; no matching case means the
`default: panic("unexpected function state")` arm — an unconditional fatal
abort, not a user-facing error value. -/
def dispatch (cps : List Nat) (s : Nat) : GoTarget :=
  match (switchCases cps).find? (fun c => c.1 == s) with
  | some c => c.2
  | none => GoTarget.panicAbort

/-- State 0 reaches the top of the body. -/
theorem dispatch_zero (cps : List Nat) : dispatch cps 0 = GoTarget.bodyTop := rfl

/-- A listed checkpoint is found by the case scan. -/
theorem findCase_mem (l : List Nat) (s : Nat) (h : s ∈ l) :
    (l.map (fun n => (n, GoTarget.label n))).find? (fun c => c.1 == s)
      = some (s, GoTarget.label s) := by
  induction l with
  | nil => simp at h
  | cons a t ih =>
    by_cases ha : a = s
    · subst ha
      simp [List.find?]
    · rw [List.map_cons, List.find?]
      have : ((a, GoTarget.label a).1 == s) = false := by
        simp [beq_eq_false_iff_ne]; exact ha
      rw [this]
      rcases List.mem_cons.mp h with he | ht
      · exact absurd he.symm ha
      · exact ih ht

/-- An unlisted state is not found by the case scan. -/
theorem findCase_not_mem (l : List Nat) (s : Nat) (h : s ∉ l) :
    (l.map (fun n => (n, GoTarget.label n))).find? (fun c => c.1 == s) = none := by
  induction l with
  | nil => rfl
  | cons a t ih =>
    have ha : ¬ a = s := fun e => h (e ▸ List.mem_cons_self a t)
    have ht : s ∉ t := fun m => h (List.mem_cons_of_mem a m)
    rw [List.map_cons, List.find?]
    have hb : ((a, GoTarget.label a).1 == s) = false := by
      simp [beq_eq_false_iff_ne]; exact ha
    rw [hb]
    exact ih ht

/-- Non-zero listed states jump to their labels. -/
theorem dispatch_label (cps : List Nat) (s : Nat) (hs : s ∈ cps) (h0 : s ≠ 0) :
    dispatch cps s = GoTarget.label s := by
  have hz : ((0, GoTarget.bodyTop).1 == s) = false := by
    simp [beq_eq_false_iff_ne]; exact fun e => h0 e.symm
  rw [dispatch, switchCases, List.find?, hz, findCase_mem cps s hs]

/-- Unlisted non-zero states reach the fatal default arm. -/
theorem dispatch_panic (cps : List Nat) (s : Nat) (hs : s ∉ cps) (h0 : s ≠ 0) :
    dispatch cps s = GoTarget.panicAbort := by
  have hz : ((0, GoTarget.bodyTop).1 == s) = false := by
    simp [beq_eq_false_iff_ne]; exact fun e => h0 e.symm
  rw [dispatch, switchCases, List.find?, hz, findCase_not_mem cps s hs]

/-- Writing at level 0 emits the split lines verbatim. -/
theorem linesAt_zero (s : String) : linesAt 0 s = splitLines s := by
  rw [linesAt]
  have he : (fun line => tabStr 0 ++ line) = fun line : String => line := funext (fun l => rfl)
  rw [he]
  simp

/-- One tab in front of a case line. -/
theorem tab_caseLine (cp : Nat) :
    tabStr 1 ++ caseLine cp = "\tcase " ++ natStr cp ++ ": goto Label" ++ natStr cp := by
  apply strExt
  rw [caseLine]
  simp [data_append, tabStr]

/-- The exact line list `write_block` emits on a fresh writer. -/
theorem write_block_out (cps : List Nat) (body : String) :
    (writer0.write_block cps body).out =
      ["var πE *πg.BaseException; _ = πE",
       "for ; πF.State() >= 0; πF.PopCheckpoint() \x7b",
       "\tswitch πF.State() \x7b",
       "\tcase 0:"]
      ++ cps.map (fun cp => "\tcase " ++ natStr cp ++ ": goto Label" ++ natStr cp)
      ++ ["\tdefault: panic(\"unexpected function state\")", "\t\x7d"]
      ++ splitLines body
      ++ ["\treturn nil, nil", "\x7d", "return nil, πE"] := by
  have hpre : ((((writer0.write "var πE *πg.BaseException; _ = πE").write
      "for ; πF.State() >= 0; πF.PopCheckpoint() \x7b").indent 1).write
      "switch πF.State() \x7b").write "case 0:" =
      ⟨["var πE *πg.BaseException; _ = πE",
        "for ; πF.State() >= 0; πF.PopCheckpoint() \x7b",
        "\tswitch πF.State() \x7b",
        "\tcase 0:"], 1⟩ := by decide
  have hmap : (fun cp => tabStr 1 ++ caseLine cp)
      = fun cp => "\tcase " ++ natStr cp ++ ": goto Label" ++ natStr cp :=
    funext tab_caseLine
  rw [Writer.write_block]
  rw [hpre, write_cases_foldl, hmap]
  rw [show ∀ O : List String, Writer.write ⟨O, 1⟩ "default: panic(\"unexpected function state\")"
        = ⟨O ++ ["\tdefault: panic(\"unexpected function state\")"], 1⟩ from
      fun O => by
        show (⟨O ++ linesAt 1 _, 1⟩ : Writer) = _
        rw [show linesAt 1 "default: panic(\"unexpected function state\")"
              = ["\tdefault: panic(\"unexpected function state\")"] from by decide]]
  rw [show ∀ O : List String, Writer.write ⟨O, 1⟩ "\x7d" = ⟨O ++ ["\t\x7d"], 1⟩ from
      fun O => by
        show (⟨O ++ linesAt 1 _, 1⟩ : Writer) = _
        rw [show linesAt 1 "\x7d" = ["\t\x7d"] from by decide]]
  rw [show ∀ O : List String, Writer.indent ⟨O, 1⟩ (-1) = ⟨O, 0⟩ from fun O => rfl]
  rw [show ∀ O : List String, Writer.write ⟨O, 0⟩ body = ⟨O ++ splitLines body, 0⟩ from
      fun O => by
        show (⟨O ++ linesAt 0 body, 0⟩ : Writer) = _
        rw [linesAt_zero]]
  rw [show ∀ O : List String, Writer.dedent ⟨O, 0⟩ (-1) = ⟨O, 1⟩ from fun O => rfl]
  rw [show ∀ O : List String, Writer.write ⟨O, 1⟩ "return nil, nil"
        = ⟨O ++ ["\treturn nil, nil"], 1⟩ from
      fun O => by
        show (⟨O ++ linesAt 1 _, 1⟩ : Writer) = _
        rw [show linesAt 1 "return nil, nil" = ["\treturn nil, nil"] from by decide]]
  rw [show ∀ O : List String, Writer.dedent ⟨O, 1⟩ 1 = ⟨O, 0⟩ from fun O => rfl]
  rw [show ∀ O : List String, Writer.write ⟨O, 0⟩ "\x7d" = ⟨O ++ ["\x7d"], 0⟩ from
      fun O => by
        show (⟨O ++ linesAt 0 _, 0⟩ : Writer) = _
        rw [show linesAt 0 "\x7d" = ["\x7d"] from by decide]]
  rw [show ∀ O : List String, Writer.write ⟨O, 0⟩ "return nil, πE"
        = ⟨O ++ ["return nil, πE"], 0⟩ from
      fun O => by
        show (⟨O ++ linesAt 0 _, 0⟩ : Writer) = _
        rw [show linesAt 0 "return nil, πE" = ["return nil, πE"] from by decide]]
  simp

/-- C3: for every checkpoint set, `write_block` emits the dispatch loop
`for ; πF.State() >= 0; πF.PopCheckpoint()` (continue while the frame's
saved state is non-negative, popping the most recent checkpoint each
iteration); in the emitted switch, state 0 falls through to the top of the
body, every other checkpoint id N in the set gets a `case N: goto LabelN`
jump, and any state not covered reaches the unconditional
`default: panic(...)` abort. -/
theorem c3_write_block_dispatch (cps : List Nat) (body : String) :
    ((writer0.write_block cps body).out =
      ["var πE *πg.BaseException; _ = πE",
       "for ; πF.State() >= 0; πF.PopCheckpoint() \x7b",
       "\tswitch πF.State() \x7b",
       "\tcase 0:"]
      ++ cps.map (fun cp => "\tcase " ++ natStr cp ++ ": goto Label" ++ natStr cp)
      ++ ["\tdefault: panic(\"unexpected function state\")", "\t\x7d"]
      ++ splitLines body
      ++ ["\treturn nil, nil", "\x7d", "return nil, πE"])
    ∧ dispatch cps 0 = GoTarget.bodyTop
    ∧ (∀ s, s ∈ cps → s ≠ 0 → dispatch cps s = GoTarget.label s)
    ∧ (∀ s, s ∉ cps → s ≠ 0 → dispatch cps s = GoTarget.panicAbort) :=
  ⟨write_block_out cps body, dispatch_zero cps,
   fun s hs h0 => dispatch_label cps s hs h0,
   fun s hs h0 => dispatch_panic cps s hs h0⟩

/-- Witness for C3 at checkpoints `{0, 3, 7}` (state 0 implicit): the
emitted dispatch jumps to checkpoint 3's label at state 3, falls through to
the body start at state 0, and fatally aborts at state 99. -/
theorem c3_write_block_dispatch_witness :
    dispatch [3, 7] 3 = GoTarget.label 3
    ∧ dispatch [3, 7] 0 = GoTarget.bodyTop
    ∧ dispatch [3, 7] 99 = GoTarget.panicAbort :=
  ⟨(c3_write_block_dispatch [3, 7] "x").2.2.1 3 (by decide) (by decide),
   (c3_write_block_dispatch [3, 7] "x").2.1,
   (c3_write_block_dispatch [3, 7] "x").2.2.2 99 (by decide) (by decide)⟩

end Grumpy

namespace Grumpy

/-- Python `sorted` on a list of strings: the sorted permutation under the
lexicographic (code-point) order.  Any sorting algorithm gives the same
result on a totally, antisymmetrically ordered type, so insertion sort
stands in for Timsort. -/
def sortedStr (keys : List String) : List String :=
  keys.insertionSort (fun a b => a ≤ b)

/-- `Writer.write_import_block`: nothing for an empty mapping; otherwise an
`import (` header, one entry line `<alias> "<absolute name>"` per key in
sorted key order inside an indent_block (whose body raises nothing, so it is
plain indent/dedent bracketing), and a `)` footer.  The dict argument is
modelled as its key list (insertion-ordered, as Python iterates a dict)
together with the alias lookup `imports[name].alias` as a function. -/
def Writer.write_import_block (w : Writer) (keys : List String) (aliasOf : String → String) :
    Writer :=
  if keys.isEmpty then w
  else
    let w1 := w.write "import ("
    let w2 := w1.indent 1
    let w3 := (sortedStr keys).foldl
      (fun acc name => acc.write (aliasOf name ++ " \"" ++ name ++ "\"")) w2
    let w4 := w3.dedent 1
    w4.write ")"

/-- `sortedStr` output is sorted. -/
theorem sortedStr_sorted (keys : List String) :
    List.Sorted (fun a b : String => a ≤ b) (sortedStr keys) :=
  List.sorted_insertionSort (fun a b => a ≤ b) keys

/-- `sortedStr` output is a permutation of its input. -/
theorem sortedStr_perm (keys : List String) : (sortedStr keys).Perm keys :=
  List.perm_insertionSort (fun a b => a ≤ b) keys

/-- Permuted key lists sort identically. -/
theorem sortedStr_perm_eq (k1 k2 : List String) (h : k1.Perm k2) :
    sortedStr k1 = sortedStr k2 := by
  have ha : IsAntisymm String (fun a b => a ≤ b) := ⟨fun a b h1 h2 => le_antisymm h1 h2⟩
  exact List.eq_of_perm_of_sorted
    ((sortedStr_perm k1).trans (h.trans (sortedStr_perm k2).symm))
    (sortedStr_sorted k1) (sortedStr_sorted k2)

/-- One emitted entry of the import block. -/
def entryLine (aliasOf : String → String) (name : String) : String :=
  aliasOf name ++ " \"" ++ name ++ "\""

/-- Entry lines are non-empty. -/
theorem entryLine_ne_empty (aliasOf : String → String) (name : String) :
    entryLine aliasOf name ≠ "" := by
  intro h
  have hd := congrArg String.data h
  rw [entryLine, data_append, data_append, data_append] at hd
  simp at hd

/-- Entry lines of line-feed-free names and aliases have no line feed. -/
theorem entryLine_no_nl (aliasOf : String → String) (name : String)
    (h1 : '\n' ∉ name.data) (h2 : '\n' ∉ (aliasOf name).data) :
    '\n' ∉ (entryLine aliasOf name).data := by
  intro h
  rw [entryLine, data_append, data_append, data_append] at h
  rcases List.mem_append.mp h with h | h
  · rcases List.mem_append.mp h with h | h
    · rcases List.mem_append.mp h with h | h
      · exact h2 h
      · simp at h
    · exact h1 h
  · simp at h

/-- The entry loop appends one line per name, in list order. -/
theorem write_entries_foldl (names : List String) (aliasOf : String → String)
    (O : List String) (L : Int)
    (h : ∀ k ∈ names, '\n' ∉ k.data ∧ '\n' ∉ (aliasOf k).data) :
    names.foldl (fun acc name => acc.write (entryLine aliasOf name)) (⟨O, L⟩ : Writer)
      = ⟨O ++ names.map (fun name => tabStr L ++ entryLine aliasOf name), L⟩ := by
  induction names generalizing O with
  | nil => simp
  | cons name t ih =>
    have hn := h name (List.mem_cons_self name t)
    have ht : ∀ k ∈ t, '\n' ∉ k.data ∧ '\n' ∉ (aliasOf k).data :=
      fun k hk => h k (List.mem_cons_of_mem name hk)
    rw [List.foldl_cons]
    have hw : Writer.write ⟨O, L⟩ (entryLine aliasOf name)
        = ⟨O ++ [tabStr L ++ entryLine aliasOf name], L⟩ := by
      show (⟨O ++ linesAt L _, L⟩ : Writer) = _
      rw [linesAt_single L _ (entryLine_no_nl aliasOf name hn.1 hn.2)
        (entryLine_ne_empty aliasOf name)]
    rw [hw, ih _ ht]
    simp

/-- C9: for every non-empty mapping from absolute module names to aliases
(keys without line feeds), `write_import_block` emits exactly one entry per
mapping entry, ordered lexicographically by absolute module name, between
an `import (` header and a `)` footer; the emitted output depends only on
the set of keys, not on the mapping's insertion order. -/
theorem c9_import_block_sorted (w : Writer) (keys : List String) (aliasOf : String → String)
    (hne : keys ≠ [])
    (hnl : ∀ k ∈ keys, '\n' ∉ k.data ∧ '\n' ∉ (aliasOf k).data) :
    ((w.write_import_block keys aliasOf).out =
      w.out ++ [tabStr w.indent_level ++ "import ("]
        ++ (sortedStr keys).map
          (fun name => tabStr (w.indent_level + 1) ++ (aliasOf name ++ " \"" ++ name ++ "\""))
        ++ [tabStr w.indent_level ++ ")"])
    ∧ List.Sorted (fun a b : String => a ≤ b) (sortedStr keys)
    ∧ (sortedStr keys).Perm keys
    ∧ (∀ keys2, keys.Perm keys2 →
        w.write_import_block keys aliasOf = w.write_import_block keys2 aliasOf) := by
  refine ⟨?_, sortedStr_sorted keys, sortedStr_perm keys, ?_⟩
  · have hie : keys.isEmpty = false := by
      cases keys
      · exact absurd rfl hne
      · rfl
    rw [Writer.write_import_block, hie]
    have hsk : ∀ k ∈ sortedStr keys, '\n' ∉ k.data ∧ '\n' ∉ (aliasOf k).data :=
      fun k hk => hnl k ((sortedStr_perm keys).mem_iff.mp hk)
    rcases w with ⟨O, L⟩
    show (Writer.write (Writer.dedent ((sortedStr keys).foldl _
        (Writer.indent (Writer.write ⟨O, L⟩ "import (") 1)) 1) ")").out = _
    have h1 : Writer.write (⟨O, L⟩ : Writer) "import (" = ⟨O ++ [tabStr L ++ "import ("], L⟩ := by
      show (⟨O ++ linesAt L _, L⟩ : Writer) = _
      rw [linesAt_single L _ (by decide) (by decide)]
    rw [h1]
    rw [show Writer.indent ⟨O ++ [tabStr L ++ "import ("], L⟩ 1
          = ⟨O ++ [tabStr L ++ "import ("], L + 1⟩ from rfl]
    rw [show (fun (acc : Writer) name => acc.write (aliasOf name ++ " \"" ++ name ++ "\""))
          = fun (acc : Writer) name => acc.write (entryLine aliasOf name) from rfl]
    rw [write_entries_foldl (sortedStr keys) aliasOf _ (L + 1) hsk]
    rw [show Writer.dedent ⟨(O ++ [tabStr L ++ "import ("]) ++
          (sortedStr keys).map (fun name => tabStr (L + 1) ++ entryLine aliasOf name), L + 1⟩ 1
        = ⟨(O ++ [tabStr L ++ "import ("]) ++
          (sortedStr keys).map (fun name => tabStr (L + 1) ++ entryLine aliasOf name),
          L + 1 - 1⟩ from rfl]
    have h2 : ∀ O2 : List String, Writer.write (⟨O2, L + 1 - 1⟩ : Writer) ")"
        = ⟨O2 ++ [tabStr L ++ ")"], L + 1 - 1⟩ := by
      intro O2
      show (⟨O2 ++ linesAt (L + 1 - 1) _, L + 1 - 1⟩ : Writer) = _
      rw [linesAt_single (L + 1 - 1) _ (by decide) (by decide)]
      rw [show (L + 1 - 1 : Int) = L from by omega]
    rw [h2]
    show (O ++ [tabStr L ++ "import ("]) ++ _ ++ [tabStr L ++ ")"] = _
    simp [entryLine]
  · intro keys2 hperm
    have hie : keys.isEmpty = false := by
      cases keys
      · exact absurd rfl hne
      · rfl
    have hne2 : keys2 ≠ [] := by
      intro h2
      subst h2
      exact hne hperm.eq_nil
    have hie2 : keys2.isEmpty = false := by
      cases keys2
      · exact absurd rfl hne2
      · rfl
    rw [Writer.write_import_block, Writer.write_import_block, hie, hie2,
      sortedStr_perm_eq keys keys2 hperm]

/-- Witness for C9: the mapping `{b ↦ xb, a ↦ xa}` written from two
different insertion orders gives identical writers. -/
theorem c9_import_block_sorted_witness :
    writer0.write_import_block ["b", "a"] (fun k => "x" ++ k)
      = writer0.write_import_block ["a", "b"] (fun k => "x" ++ k) :=
  (c9_import_block_sorted writer0 ["b", "a"] (fun k => "x" ++ k) (by decide)
    (by decide)).2.2.2 ["a", "b"] (by decide)

end Grumpy

/-! ## Errors, the Import/Binding model, and the AST nodes -/

namespace Grumpy

/-- The error kinds of compiler/util.py: `ParseError` and `ImportError`,
both subclasses of `CompileError`. -/
inductive ErrKind where
  | importError : ErrKind
  | parseError : ErrKind
deriving DecidableEq

/-- A raised `CompileError`: its class, the `node.lineno` the constructor
formats into the message (`'line {}: {}'`), and the raw message text. -/
structure CompileErr where
  kind : ErrKind
  lineno : Nat
  msg : String
deriving DecidableEq

/-- `Import.MODULE` / `Import.MEMBER`. -/
inductive BindType where
  | module : BindType
  | member : BindType
deriving DecidableEq

/-- The `value` slot of a `Binding` namedtuple: an integer for MODULE
bindings (an index into the dotted-path module chain), a remote attribute
name for MEMBER bindings. -/
inductive BindValue where
  | intVal : Int → BindValue
  | strVal : String → BindValue
deriving DecidableEq

/-- The `Binding` namedtuple `(bind_type, alias, value)` (the `alias` field
is called `aliasName` here because `alias` is a Lean keyword). -/
structure Binding where
  bind_type : BindType
  aliasName : String
  value : BindValue
deriving DecidableEq

/-- The `Import` class: target module name, native flag, ordered bindings. -/
structure Import where
  name : String
  is_native : Bool
  bindings : List Binding
deriving DecidableEq

/-- `Import.add_binding`. -/
def addBinding (imp : Import) (b : Binding) : Import :=
  { imp with bindings := imp.bindings ++ [b] }

/-- One `alias` node of a parsed import statement: written name and
optional `as` name. -/
structure ImportAlias where
  name : String
  asname : Option String
deriving DecidableEq

/-- A parsed plain import statement (`import n1 [as a1], n2, ...`). -/
structure ImportNode where
  lineno : Nat
  names : List ImportAlias
deriving DecidableEq

/-- A parsed from-import statement (`from m import n1 [as a1], ...`). -/
structure ImportFromNode where
  lineno : Nat
  module : String
  names : List ImportAlias
deriving DecidableEq

/-- `_NATIVE_MODULE_PREFIX` of compiler/util.py. -/
def NATIVE_MODULE_PRE : String := "__go__."

/-- In-place update of the element at index `p` (the pure rendering of the
source's mutation of `member_imp`, which is aliased by `self.imports[p]`). -/
def listModify {α : Type} : List α → Nat → (α → α) → List α
  | [], _, _ => []
  | x :: xs, 0, f => f x :: xs
  | x :: xs, n + 1, f => x :: listModify xs n f

end Grumpy

/-! ## The Path resolver -/

namespace Grumpy

/-- The `Path` object: search-path directories plus the optional enclosing
package (directory and dotted name, always both set or both unset). -/
structure PyPath where
  dirs : List String
  package_dir : Option String
  package_name : Option String
deriving DecidableEq

/-- Python truthiness of the `package_dir` attribute (`None` and the empty
string are falsy). -/
def pyTruthy : Option String → Bool
  | none => false
  | some s => s != ""

/-- `name.replace('.', os.sep)` with `os.sep = '/'`. -/
def dotsToSlashes (name : String) : String :=
  ⟨name.data.map (fun c => if c = '.' then '/' else c)⟩

/-- `Path._find_script`: try `dirname/name-as-path.py`, then the package
initializer `dirname/name-as-path/__init__.py`; `fs` is the
`os.path.isfile` predicate. -/
def find_script (fs : String → Bool) (dirname name : String) : Option String :=
  let prefixPath := dirname ++ "/" ++ dotsToSlashes name
  if fs (prefixPath ++ ".py") then some (prefixPath ++ ".py")
  else if fs (prefixPath ++ "/__init__.py") then some (prefixPath ++ "/__init__.py")
  else none

/-- The `for dirname in self.dirs` loop of `resolve_import`: first matching
directory wins, and the module name is returned unchanged. -/
def findOnDirs (fs : String → Bool) (modname : String) : List String → Option (String × String)
  | [] => none
  | d :: ds =>
    match find_script fs d modname with
    | some script => some (modname, script)
    | none => findOnDirs fs modname ds

/-- `Path.resolve_import`: the package-relative probe first (when the
compiling module is part of a package), then the search-path directories in
order; `none` models the `(None, None)` sentinel — the function is total,
no exception is raised on a missing module. -/
def resolve_import (fs : String → Bool) (p : PyPath) (modname : String) :
    Option (String × String) :=
  if pyTruthy p.package_dir then
    match find_script fs (p.package_dir.getD "") modname with
    | some script => some ((p.package_name.getD "") ++ "." ++ modname, script)
    | none => findOnDirs fs modname p.dirs
  else findOnDirs fs modname p.dirs

/-- `os.path.split` for POSIX paths: split at the last slash; the head
keeps no trailing slash unless it consists only of slashes. -/
def pathSplit (s : String) : String × String :=
  let rev := s.data.reverse
  let tail := (rev.takeWhile (fun c => c ≠ '/')).reverse
  let head0 := (rev.dropWhile (fun c => c ≠ '/')).reverse
  let head :=
    if head0.all (fun c => c = '/') then head0
    else (head0.reverse.dropWhile (fun c => c = '/')).reverse
  (⟨head⟩, ⟨tail⟩)

/-- `modname[:modname.rfind('.')]` (meaningful when a dot is present). -/
def upToLastDot (s : String) : String :=
  ⟨((s.data.reverse.dropWhile (fun c => c ≠ '.')).drop 1).reverse⟩

/-- `modname.find('.') != -1`. -/
def strContains (s : String) (c : Char) : Bool := s.data.contains c

/-- `Path.__init__`: the search directories are every gopath root joined
with the fixed `src/__python__` namespace subdirectory (`gopath` is passed
here already split on `os.pathsep`; an absent gopath is the empty list).
The enclosing package is the script's directory when the script is an
`__init__.py`, or when the module is a dotted submodule with a sibling
`__init__.py`. -/
def Path.init (fs : String → Bool) (gopath : List String) (modname script : String) : PyPath :=
  let dirs := gopath.map (fun d => d ++ "/src/__python__")
  let ds := pathSplit script
  if ds.2 == "__init__.py" then
    ⟨dirs, some ds.1, some modname⟩
  else if strContains modname '.' && fs (ds.1 ++ "/__init__.py") then
    ⟨dirs, some ds.1, some (upToLastDot modname)⟩
  else
    ⟨dirs, none, none⟩

end Grumpy

namespace Grumpy

/-- Directories earlier on the search path that miss are skipped; the first
match wins. -/
theorem findOnDirs_append (fs : String → Bool) (name : String) (ds1 : List String)
    (d : String) (ds2 : List String) (s : String)
    (hnone : ∀ a ∈ ds1, find_script fs a name = none)
    (hfind : find_script fs d name = some s) :
    findOnDirs fs name (ds1 ++ d :: ds2) = some (name, s) := by
  induction ds1 with
  | nil =>
    rw [List.nil_append, findOnDirs, hfind]
  | cons a t ih =>
    have ha := hnone a (List.mem_cons_self a t)
    have ht : ∀ x ∈ t, find_script fs x name = none :=
      fun x hx => hnone x (List.mem_cons_of_mem a hx)
    rw [List.cons_append, findOnDirs, ha]
    exact ih ht

/-- When no directory matches, the scan returns the sentinel. -/
theorem findOnDirs_none (fs : String → Bool) (name : String) (ds : List String)
    (hnone : ∀ a ∈ ds, find_script fs a name = none) :
    findOnDirs fs name ds = none := by
  induction ds with
  | nil => rfl
  | cons a t ih =>
    have ha := hnone a (List.mem_cons_self a t)
    have ht : ∀ x ∈ t, find_script fs x name = none :=
      fun x hx => hnone x (List.mem_cons_of_mem a hx)
    rw [findOnDirs, ha]
    exact ih ht

/-- The package-relative probe missed (or there is no enclosing package). -/
def packageMiss (fs : String → Bool) (p : PyPath) (name : String) : Prop :=
  pyTruthy p.package_dir = false ∨
    (∃ pd, p.package_dir = some pd ∧ find_script fs pd name = none)

/-- Under a package miss, resolution is exactly the directory scan. -/
theorem resolve_import_dirs (fs : String → Bool) (p : PyPath) (name : String)
    (hmiss : packageMiss fs p name) :
    resolve_import fs p name = findOnDirs fs name p.dirs := by
  rcases hmiss with hf | ⟨pd, hpd, hnone⟩
  · rw [resolve_import, if_neg]
    simp [hf]
  · by_cases ht : pyTruthy p.package_dir = true
    · rw [resolve_import, if_pos ht, hpd]
      show (match find_script fs pd name with
        | some script => some ((p.package_name.getD "") ++ "." ++ name, script)
        | none => findOnDirs fs name p.dirs) = _
      rw [hnone]
    · rw [resolve_import, if_neg]
      simpa using ht

/-- C5: the configured search path is every gopath root joined with the
fixed `src/__python__` namespace subdirectory; `resolve_import` first
attempts the package-relative match `package_name + "." + name` when the
compiling module is part of a package, and only otherwise scans the
search-path directories in order (first match wins, name returned
unchanged); `_find_script` accepts a matching source file or a directory
containing a package initializer; and when nothing matches the result is
the `(None, None)` sentinel (the function is total — no exception). -/
theorem c5_resolve_order (fs : String → Bool) (gopath : List String)
    (modname script : String) (p : PyPath) (name : String) :
    ((Path.init fs gopath modname script).dirs = gopath.map (fun d => d ++ "/src/__python__"))
    ∧ (∀ pd s, p.package_dir = some pd → pd ≠ "" → find_script fs pd name = some s →
        resolve_import fs p name = some ((p.package_name.getD "") ++ "." ++ name, s))
    ∧ (packageMiss fs p name →
        ∀ ds1 d ds2 s, p.dirs = ds1 ++ d :: ds2 →
          (∀ a ∈ ds1, find_script fs a name = none) →
          find_script fs d name = some s →
          resolve_import fs p name = some (name, s))
    ∧ (∀ d, (fs (d ++ "/" ++ dotsToSlashes name ++ ".py") = true →
          find_script fs d name = some (d ++ "/" ++ dotsToSlashes name ++ ".py"))
        ∧ (fs (d ++ "/" ++ dotsToSlashes name ++ ".py") = false →
          fs (d ++ "/" ++ dotsToSlashes name ++ "/__init__.py") = true →
          find_script fs d name = some (d ++ "/" ++ dotsToSlashes name ++ "/__init__.py")))
    ∧ (packageMiss fs p name →
        (∀ d ∈ p.dirs, find_script fs d name = none) →
        resolve_import fs p name = none) := by
  refine ⟨?_, ?_, ?_, ?_, ?_⟩
  · rw [Path.init]
    split
    · rfl
    · split <;> rfl
  · intro pd s hpd hne hfind
    have ht : pyTruthy p.package_dir = true := by
      rw [hpd]
      exact bne_iff_ne.mpr hne
    rw [resolve_import, if_pos ht, hpd]
    show (match find_script fs pd name with
      | some script => some ((p.package_name.getD "") ++ "." ++ name, script)
      | none => findOnDirs fs name p.dirs) = _
    rw [hfind]
  · intro hmiss ds1 d ds2 s hdirs hnone hfind
    rw [resolve_import_dirs fs p name hmiss, hdirs]
    exact findOnDirs_append fs name ds1 d ds2 s hnone hfind
  · intro d
    constructor
    · intro hf
      rw [find_script]
      simp only [hf]
      rfl
    · intro hf hi
      rw [find_script]
      simp only [hf, hi]
      rfl
  · intro hmiss hnone
    rw [resolve_import_dirs fs p name hmiss]
    exact findOnDirs_none fs name p.dirs hnone

/-- Witness for C5: compiling inside package `pkg`, `sub2` resolves
package-relatively to `pkg.sub2` even though a search-path match also
exists. -/
theorem c5_resolve_order_witness :
    resolve_import
      (fun q => q == "/pk/sub2.py" || q == "/r/src/__python__/sub2.py")
      ⟨["/r/src/__python__"], some "/pk", some "pkg"⟩ "sub2"
      = some ("pkg.sub2", "/pk/sub2.py") :=
  (c5_resolve_order (fun q => q == "/pk/sub2.py" || q == "/r/src/__python__/sub2.py")
    [] "" "" ⟨["/r/src/__python__"], some "/pk", some "pkg"⟩ "sub2").2.1
    "/pk" "/pk/sub2.py" rfl (by decide) (by decide)

end Grumpy

/-! ## The ImportVisitor -/

namespace Grumpy

/-- The loop body of `ImportVisitor.visit_Import`, processing the statement
aliases in order while appending to the visitor's `imports` accumulator.
A native-prefixed written name raises; `_resolve_import` raises on an
unresolvable name; an aliased name gets a MODULE binding
`(asname, full.count('.'))`; an unaliased name gets a MODULE binding whose
local name is `parts[-1]` of the written name split on dots and whose value
is `full.count('.') - len(parts) + 1`. -/
def visit_Import_go (resolve : String → Option String) (node : ImportNode) :
    List ImportAlias → List Import → Except CompileErr (List Import)
  | [], acc => .ok acc
  | a :: rest, acc =>
    if strStarts NATIVE_MODULE_PRE a.name then
      .error ⟨ErrKind.importError, node.lineno,
        "for native imports use \"from __go__.xyz import ...\" syntax"⟩
    else
      match resolve a.name with
      | none => .error ⟨ErrKind.importError, node.lineno, "no such module: " ++ a.name⟩
      | some full =>
        let imp : Import :=
          match a.asname with
          | some asn => ⟨full, false, [⟨BindType.module, asn, BindValue.intVal (countDots full)⟩]⟩
          | none =>
            let parts := splitOnChar '.' a.name.data
            ⟨full, false, [⟨BindType.module, mkStr (parts.getLastD []),
              BindValue.intVal ((countDots full : Int) - parts.length + 1)⟩]⟩
        visit_Import_go resolve node rest (acc ++ [imp])

/-- `ImportVisitor.visit_Import` on a fresh visitor: the `Import` objects
appended for one plain import statement.  `resolve` is
`self.path.resolve_import` restricted to its first component. -/
def visit_Import (resolve : String → Option String) (node : ImportNode) :
    Except CompileErr (List Import) :=
  visit_Import_go resolve node node.names []

/-- The member loop of `ImportVisitor.visit_ImportFrom`: each name is first
probed as the submodule `module.name`; on a hit a standalone MODULE import
is appended; on a miss the statement's single `member_imp` is created on
first use (resolving `module` itself, raising when unresolvable) and every
later plain member mutates it in place (`listModify` at its recorded
position). -/
def goFrom (resolve : String → Option String) (node : ImportFromNode) :
    List ImportAlias → List Import → Option Nat → Except CompileErr (List Import)
  | [], acc, _ => .ok acc
  | a :: rest, acc, memberPos =>
    let asname := a.asname.getD a.name
    match resolve (node.module ++ "." ++ a.name) with
    | some full =>
      goFrom resolve node rest
        (acc ++ [⟨full, false, [⟨BindType.module, asname, BindValue.intVal (countDots full)⟩]⟩])
        memberPos
    | none =>
      match memberPos with
      | some p =>
        goFrom resolve node rest
          (listModify acc p (fun imp =>
            addBinding imp ⟨BindType.member, asname, BindValue.strVal a.name⟩))
          (some p)
      | none =>
        match resolve node.module with
        | none => .error ⟨ErrKind.importError, node.lineno, "no such module: " ++ node.module⟩
        | some fm =>
          goFrom resolve node rest
            (acc ++ [⟨fm, false, [⟨BindType.member, asname, BindValue.strVal a.name⟩]⟩])
            (some acc.length)

/-- `ImportVisitor.visit_ImportFrom` on a fresh visitor: wildcard members
raise, the `__future__` pseudo-module is silently ignored, a native-prefixed
module becomes one native `Import` (stripped name, one MEMBER binding per
imported name, the path resolver untouched), and any other module goes
through the member loop. -/
def visit_ImportFrom (resolve : String → Option String) (node : ImportFromNode) :
    Except CompileErr (List Import) :=
  if node.names.any (fun a => a.name == "*") then
    .error ⟨ErrKind.importError, node.lineno,
      "wildcard member import is not implemented: from " ++ node.module ++ " import *"⟩
  else if node.module == "__future__" then .ok []
  else if strStarts NATIVE_MODULE_PRE node.module then
    .ok [⟨strDrop NATIVE_MODULE_PRE.data.length node.module, true,
      node.names.map (fun a => ⟨BindType.member, a.asname.getD a.name, BindValue.strVal a.name⟩)⟩]
  else goFrom resolve node node.names [] none

end Grumpy

namespace Grumpy

/-- C1, evaluated at the failing input: for the plain statement
`import a.b.c` (with `a.b.c` resolving to itself), the code produces one
Import whose single MODULE binding has local name `"c"` — `parts[-1]`, the
LAST dotted component of the written name — with value 0, the index of the
top-level package `a` in the module chain.  The claim (and the spec, and
Python's own import semantics, and upstream grumpy which uses `parts[0]`)
requires local name `"a"`, the FIRST component.  The value
`count('.') - len(parts) + 1 = 0` (exposing only the top package, i.e.
strip count (2-2+1)=1 in the spec's convention) and the aliased behaviour
(`as x` binds `x` with value `count('.') = 2`, the whole path, strip count
0) match the claim; only the unaliased local name diverges. -/
theorem c1_unaliased_binds_last_component :
    visit_Import (fun s => if s == "a.b.c" then some "a.b.c" else none)
        ⟨1, [⟨"a.b.c", none⟩]⟩
      = .ok [⟨"a.b.c", false, [⟨BindType.module, "c", BindValue.intVal 0⟩]⟩]
    ∧ visit_Import (fun s => if s == "a.b.c" then some "a.b.c" else none)
        ⟨1, [⟨"a.b.c", some "x"⟩]⟩
      = .ok [⟨"a.b.c", false, [⟨BindType.module, "x", BindValue.intVal 2⟩]⟩] :=
  ⟨rfl, rfl⟩

/-- C6: a from-import whose module carries the native prefix produces
exactly one Import named by the module with the prefix stripped, with the
native flag set, carrying one MEMBER binding per imported name (local
alias, or the remote name when unaliased, mapped to the remote name) in
statement order; and the result is the same for every resolver — the
PathResolver is never consulted. -/
theorem c6_native_from (r r' : String → Option String) (node : ImportFromNode)
    (hnat : strStarts NATIVE_MODULE_PRE node.module = true)
    (hw : node.names.any (fun a => a.name == "*") = false) :
    (visit_ImportFrom r node =
      .ok [⟨strDrop NATIVE_MODULE_PRE.data.length node.module, true,
        node.names.map (fun a =>
          ⟨BindType.member, a.asname.getD a.name, BindValue.strVal a.name⟩)⟩])
    ∧ visit_ImportFrom r node = visit_ImportFrom r' node := by
  have hfut : (node.module == "__future__") = false := by
    rcases h : node.module == "__future__"
    · rfl
    · exfalso
      have he : node.module = "__future__" := eq_of_beq h
      rw [he] at hnat
      exact absurd hnat (by decide)
  have key : ∀ rr : String → Option String, visit_ImportFrom rr node =
      .ok [⟨strDrop NATIVE_MODULE_PRE.data.length node.module, true,
        node.names.map (fun a =>
          ⟨BindType.member, a.asname.getD a.name, BindValue.strVal a.name⟩)⟩] := by
    intro rr
    rw [visit_ImportFrom]
    simp [hw, hfut, hnat]
  exact ⟨key r, (key r).trans (key r').symm⟩

/-- Witness for C6: `from __go__.foo import Bar as Baz` yields exactly one
native Import named `foo` with the single MEMBER binding `Baz → Bar`. -/
theorem c6_native_from_witness :
    visit_ImportFrom (fun _ => none) ⟨3, "__go__.foo", [⟨"Bar", some "Baz"⟩]⟩
      = .ok [⟨"foo", true, [⟨BindType.member, "Baz", BindValue.strVal "Bar"⟩]⟩] :=
  (c6_native_from (fun _ => none) (fun s => some s)
    ⟨3, "__go__.foo", [⟨"Bar", some "Baz"⟩]⟩ (by decide) (by decide)).1

/-- A plain import statement containing a native-prefixed target always
raises an ImportError citing the statement's line. -/
theorem visit_Import_go_native_err (r : String → Option String) (node : ImportNode) :
    ∀ (names : List ImportAlias) (acc : List Import),
      names.any (fun a => strStarts NATIVE_MODULE_PRE a.name) = true →
      ∃ msg, visit_Import_go r node names acc
        = .error ⟨ErrKind.importError, node.lineno, msg⟩ := by
  intro names
  induction names with
  | nil => intro acc h; simp at h
  | cons a rest ih =>
    intro acc h
    by_cases hn : strStarts NATIVE_MODULE_PRE a.name = true
    · exact ⟨_, by rw [visit_Import_go, if_pos hn]⟩
    · have hn' : strStarts NATIVE_MODULE_PRE a.name = false := by
        rcases hb : strStarts NATIVE_MODULE_PRE a.name
        · rfl
        · exact absurd hb hn
      have hrest : rest.any (fun x => strStarts NATIVE_MODULE_PRE x.name) = true := by
        rw [List.any_cons, hn'] at h
        simpa using h
      rcases hres : r a.name with _ | full
      · exact ⟨_, by rw [visit_Import_go, if_neg hn, hres]⟩
      · have := ih (acc ++ [match a.asname with
          | some asn => (⟨full, false, [⟨BindType.module, asn,
              BindValue.intVal (countDots full)⟩]⟩ : Import)
          | none =>
            ⟨full, false, [⟨BindType.module,
              mkStr ((splitOnChar '.' a.name.data).getLastD []),
              BindValue.intVal ((countDots full : Int)
                - (splitOnChar '.' a.name.data).length + 1)⟩]⟩]) hrest
      
        rcases this with ⟨msg, hmsg⟩
        refine ⟨msg, ?_⟩
        rw [visit_Import_go, if_neg hn, hres]
        exact hmsg

/-- C7: a from-import containing a wildcard member raises an ImportError
citing the statement's line, for any module; and a plain import of any
target beginning with the native prefix raises an ImportError citing the
statement's line.  Neither is ever silently skipped. -/
theorem c7_hard_errors :
    (∀ (r : String → Option String) (node : ImportFromNode),
      node.names.any (fun a => a.name == "*") = true →
      ∃ msg, visit_ImportFrom r node = .error ⟨ErrKind.importError, node.lineno, msg⟩)
    ∧ (∀ (r : String → Option String) (node : ImportNode),
      node.names.any (fun a => strStarts NATIVE_MODULE_PRE a.name) = true →
      ∃ msg, visit_Import r node = .error ⟨ErrKind.importError, node.lineno, msg⟩) := by
  constructor
  · intro r node h
    exact ⟨_, by rw [visit_ImportFrom, if_pos h]⟩
  · intro r node h
    exact visit_Import_go_native_err r node node.names [] h

/-- Witness for C7 at `from m import *` (line 2) and `import __go__.foo`
(line 4). -/
theorem c7_hard_errors_witness :
    (∃ msg, visit_ImportFrom (fun _ => none) ⟨2, "m", [⟨"*", none⟩]⟩
      = .error ⟨ErrKind.importError, 2, msg⟩)
    ∧ (∃ msg, visit_Import (fun _ => none) ⟨4, [⟨"__go__.foo", none⟩]⟩
      = .error ⟨ErrKind.importError, 4, msg⟩) :=
  ⟨c7_hard_errors.1 (fun _ => none) ⟨2, "m", [⟨"*", none⟩]⟩ (by decide),
   c7_hard_errors.2 (fun _ => none) ⟨4, [⟨"__go__.foo", none⟩]⟩ (by decide)⟩

end Grumpy

/-! ## C4: the from-import member loop -/

namespace Grumpy

def addBindings (imp : Import) (bs : List Binding) : Import :=
  { imp with bindings := imp.bindings ++ bs }

theorem addBindings_nil (imp : Import) : addBindings imp [] = imp := by
  cases imp; simp [addBindings]

theorem addBindings_cons (imp : Import) (b : Binding) (bs : List Binding) :
    addBindings (addBinding imp b) bs = addBindings imp (b :: bs) := by
  cases imp; simp [addBindings, addBinding]

theorem listModify_length {α : Type} (l : List α) (p : Nat) (f : α → α) :
    (listModify l p f).length = l.length := by
  induction l generalizing p with
  | nil => rfl
  | cons x xs ih =>
    cases p with
    | zero => rfl
    | succ q => simp [listModify, ih]

theorem listModify_append_left {α : Type} (l1 l2 : List α) (p : Nat) (f : α → α)
    (h : p < l1.length) : listModify (l1 ++ l2) p f = listModify l1 p f ++ l2 := by
  induction l1 generalizing p with
  | nil => simp at h
  | cons x xs ih =>
    cases p with
    | zero => rfl
    | succ q =>
      have hq : q < xs.length := by simpa using h
      simp [listModify, ih _ hq]

theorem listModify_at {α : Type} (l1 : List α) (x : α) (l2 : List α) (f : α → α) :
    listModify (l1 ++ x :: l2) l1.length f = l1 ++ f x :: l2 := by
  induction l1 with
  | nil => rfl
  | cons y ys ih => simp [listModify, ih]

theorem listModify_congr {α : Type} (l : List α) (p : Nat) (f g : α → α)
    (h : ∀ x, f x = g x) : listModify l p f = listModify l p g := by
  induction l generalizing p with
  | nil => rfl
  | cons x xs ih =>
    cases p with
    | zero => simp [listModify, h]
    | succ q => simp [listModify, ih]

theorem listModify_id {α : Type} (l : List α) (p : Nat) :
    listModify l p (fun x => x) = l := by
  induction l generalizing p with
  | nil => rfl
  | cons x xs ih =>
    cases p with
    | zero => rfl
    | succ q => simp [listModify, ih]

theorem listModify_comp {α : Type} (l : List α) (p : Nat) (f g : α → α) :
    listModify (listModify l p f) p g = listModify l p (fun x => g (f x)) := by
  induction l generalizing p with
  | nil => rfl
  | cons x xs ih =>
    cases p with
    | zero => rfl
    | succ q => simp [listModify, ih]

/-- The standalone submodule imports of a from-import statement, per the
claim: one MODULE import per name whose probe `m.n` resolves. -/
def subImports (resolve : String → Option String) (m : String) (names : List ImportAlias) :
    List Import :=
  names.filterMap (fun a => (resolve (m ++ "." ++ a.name)).map
    (fun full => ⟨full, false,
      [⟨BindType.module, a.asname.getD a.name, BindValue.intVal (countDots full)⟩]⟩))

/-- The MEMBER bindings accumulated for the plain-member names, per the
claim: one `alias → remote name` binding per name, in statement order. -/
def memberBindings (names : List ImportAlias) : List Binding :=
  names.map (fun a => ⟨BindType.member, a.asname.getD a.name, BindValue.strVal a.name⟩)

/-- Reference rendering of claim C4 for a non-native, non-future,
non-wildcard from-import: every name whose probe `m.n` resolves becomes a
standalone MODULE import; if any name fails the probe, `m` itself is
resolved once (an unresolvable `m` is an ImportError citing `m`), a single
member Import for `m` is placed where the first plain member occurred, and
it accumulates one MEMBER binding per plain-member name of the statement. -/
def specFrom (resolve : String → Option String) (m : String) (lineno : Nat)
    (names : List ImportAlias) : Except CompileErr (List Import) :=
  if (names.filter (fun a => (resolve (m ++ "." ++ a.name)).isNone)).isEmpty then
    .ok (subImports resolve m names)
  else
    match resolve m with
    | none => .error ⟨ErrKind.importError, lineno, "no such module: " ++ m⟩
    | some fm =>
      .ok (subImports resolve m
          (names.take (names.findIdx (fun a => (resolve (m ++ "." ++ a.name)).isNone)))
        ++ [⟨fm, false, memberBindings
            (names.filter (fun a => (resolve (m ++ "." ++ a.name)).isNone))⟩]
        ++ subImports resolve m
          (names.drop (names.findIdx (fun a => (resolve (m ++ "." ++ a.name)).isNone))))

theorem goFrom_member (r : String → Option String) (node : ImportFromNode) :
    ∀ (names : List ImportAlias) (acc : List Import) (p : Nat), p < acc.length →
      goFrom r node names acc (some p)
        = .ok (listModify (acc ++ subImports r node.module names) p
            (fun imp => addBindings imp (memberBindings
              (names.filter (fun a => (r (node.module ++ "." ++ a.name)).isNone))))) := by
  intro names
  induction names with
  | nil =>
    intro acc p hp
    rw [goFrom]
    rw [show (([] : List ImportAlias).filter
      (fun a => (r (node.module ++ "." ++ a.name)).isNone)) = [] from rfl]
    rw [show subImports r node.module [] = [] from rfl]
    rw [List.append_nil]
    rw [listModify_congr acc p
      (fun imp => addBindings imp (memberBindings [])) (fun x => x)
      (fun x => addBindings_nil x)]
    rw [listModify_id]
  | cons a rest ih =>
    intro acc p hp
    rcases hprobe : r (node.module ++ "." ++ a.name) with _ | full
    · -- plain member: mutate the member import in place
      rw [goFrom]
      simp only [hprobe]
      have hp2 : p < (listModify acc p (fun imp =>
          addBinding imp ⟨BindType.member, a.asname.getD a.name,
            BindValue.strVal a.name⟩)).length := by
        rw [listModify_length]; exact hp
      rw [ih _ p hp2]
      congr 1
      rw [listModify_append_left _ _ p _ hp2,
          listModify_append_left _ _ p _ hp,
          listModify_comp]
      have hsub : subImports r node.module (a :: rest) = subImports r node.module rest := by
        rw [subImports, List.filterMap_cons, hprobe]
        rfl
      have hfil : (a :: rest).filter (fun x => (r (node.module ++ "." ++ x.name)).isNone)
          = a :: rest.filter (fun x => (r (node.module ++ "." ++ x.name)).isNone) := by
        rw [List.filter_cons, hprobe]
        rfl
      rw [hsub, hfil]
      congr 1
      apply listModify_congr
      intro x
      rw [addBindings_cons]
      rfl
    · -- submodule probe hit: standalone import appended
      rw [goFrom]
      simp only [hprobe]
      have hp2 : p < (acc ++ [(⟨full, false, [⟨BindType.module, a.asname.getD a.name,
          BindValue.intVal (countDots full)⟩]⟩ : Import)]).length := by
        simp; omega
      rw [ih _ p hp2]
      congr 1
      have hsub : subImports r node.module (a :: rest)
          = (⟨full, false, [⟨BindType.module, a.asname.getD a.name,
              BindValue.intVal (countDots full)⟩]⟩ : Import) :: subImports r node.module rest := by
        rw [subImports, List.filterMap_cons, hprobe]
        rfl
      have hfil : (a :: rest).filter (fun x => (r (node.module ++ "." ++ x.name)).isNone)
          = rest.filter (fun x => (r (node.module ++ "." ++ x.name)).isNone) := by
        rw [List.filter_cons, hprobe]
        rfl
      rw [hsub, hfil, List.append_assoc]
      rfl

theorem specFrom_cons_hit (r : String → Option String) (m : String) (lineno : Nat)
    (a : ImportAlias) (rest : List ImportAlias) (full : String)
    (hprobe : r (m ++ "." ++ a.name) = some full) :
    specFrom r m lineno (a :: rest)
      = (specFrom r m lineno rest).map (fun l =>
          (⟨full, false, [⟨BindType.module, a.asname.getD a.name,
            BindValue.intVal (countDots full)⟩]⟩ : Import) :: l) := by
  have hfil : (a :: rest).filter (fun x => (r (m ++ "." ++ x.name)).isNone)
      = rest.filter (fun x => (r (m ++ "." ++ x.name)).isNone) := by
    rw [List.filter_cons, hprobe]
    rfl
  have hsub : subImports r m (a :: rest)
      = (⟨full, false, [⟨BindType.module, a.asname.getD a.name,
          BindValue.intVal (countDots full)⟩]⟩ : Import) :: subImports r m rest := by
    rw [subImports, List.filterMap_cons, hprobe]
    rfl
  rw [specFrom, specFrom, hfil]
  by_cases hemp : (rest.filter (fun x => (r (m ++ "." ++ x.name)).isNone)).isEmpty
  · rw [if_pos hemp, if_pos hemp, hsub]
    rfl
  · rw [if_neg hemp, if_neg hemp]
    rcases hm : r m with _ | fm
    · rfl
    · have hk : (a :: rest).findIdx (fun x => (r (m ++ "." ++ x.name)).isNone)
          = (rest.findIdx (fun x => (r (m ++ "." ++ x.name)).isNone)) + 1 := by
        rw [List.findIdx_cons]
        simp [hprobe]
      rw [hk]
      rw [show (a :: rest).take ((rest.findIdx (fun x => (r (m ++ "." ++ x.name)).isNone)) + 1)
            = a :: rest.take (rest.findIdx (fun x => (r (m ++ "." ++ x.name)).isNone)) from rfl]
      rw [show (a :: rest).drop ((rest.findIdx (fun x => (r (m ++ "." ++ x.name)).isNone)) + 1)
            = rest.drop (rest.findIdx (fun x => (r (m ++ "." ++ x.name)).isNone)) from rfl]
      have hsub2 : subImports r m (a :: rest.take
          (rest.findIdx (fun x => (r (m ++ "." ++ x.name)).isNone)))
          = (⟨full, false, [⟨BindType.module, a.asname.getD a.name,
              BindValue.intVal (countDots full)⟩]⟩ : Import)
            :: subImports r m (rest.take (rest.findIdx (fun x => (r (m ++ "." ++ x.name)).isNone))) := by
        rw [subImports, List.filterMap_cons, hprobe]
        rfl
      rw [hsub2]
      rfl

theorem goFrom_none (r : String → Option String) (node : ImportFromNode) :
    ∀ (names : List ImportAlias) (acc : List Import),
      goFrom r node names acc none
        = (specFrom r node.module node.lineno names).map (fun l => acc ++ l) := by
  intro names
  induction names with
  | nil =>
    intro acc
    rw [goFrom, specFrom]
    simp [subImports, Except.map]
  | cons a rest ih =>
    intro acc
    rcases hprobe : r (node.module ++ "." ++ a.name) with _ | full
    · -- plain member head
      have hfil : (a :: rest).filter (fun x => (r (node.module ++ "." ++ x.name)).isNone)
          = a :: rest.filter (fun x => (r (node.module ++ "." ++ x.name)).isNone) := by
        rw [List.filter_cons, hprobe]
        rfl
      have hsub : subImports r node.module (a :: rest) = subImports r node.module rest := by
        rw [subImports, List.filterMap_cons, hprobe]
        rfl
      rw [goFrom]
      simp only [hprobe]
      rcases hm : r node.module with _ | fm
      · rw [specFrom, hfil]
        rw [if_neg (by simp)]
        rw [hm]
        rfl
      · have hp : acc.length < (acc ++ [(⟨fm, false,
            [⟨BindType.member, a.asname.getD a.name, BindValue.strVal a.name⟩]⟩ : Import)]).length := by
          simp
        simp only []
        rw [goFrom_member r node rest _ acc.length hp]
        rw [List.append_assoc, List.singleton_append]
        rw [listModify_at acc _ _ _]
        rw [specFrom, hfil]
        rw [if_neg (by simp)]
        rw [hm]
        have hk : (a :: rest).findIdx (fun x => (r (node.module ++ "." ++ x.name)).isNone) = 0 := by
          rw [List.findIdx_cons]
          simp [hprobe]
        rw [hk]
        rw [show (a :: rest).take 0 = [] from rfl, show (a :: rest).drop 0 = a :: rest from rfl]
        rw [hsub]
        rw [show subImports r node.module [] = [] from rfl]
        show Except.ok (acc ++ addBindings _ _ :: subImports r node.module rest) = _
        rw [show addBindings (⟨fm, false,
            [⟨BindType.member, a.asname.getD a.name, BindValue.strVal a.name⟩]⟩ : Import)
            (memberBindings (rest.filter (fun x => (r (node.module ++ "." ++ x.name)).isNone)))
          = ⟨fm, false, memberBindings (a :: rest.filter
              (fun x => (r (node.module ++ "." ++ x.name)).isNone))⟩ from by
          rw [addBindings, memberBindings]
          rfl]
        rfl
    · -- submodule probe hit
      rw [goFrom]
      simp only [hprobe]
      rw [ih]
      rw [specFrom_cons_hit r node.module node.lineno a rest full hprobe]
      rcases hs : specFrom r node.module node.lineno rest with e | l
      · rfl
      · show Except.ok ((acc ++ [_]) ++ l) = Except.ok (acc ++ _ :: l)
        rw [List.append_assoc]
        rfl

/-- C4: for every non-native (and non-future, non-wildcard) from-import
`from m import n1, n2, ...`, each imported name is first probed as the
submodule `m.n`: a hit yields a standalone Import with one MODULE binding
to the resolved absolute name; on a miss, `m` itself is resolved at most
once per statement (the first plain-member occurrence triggers resolution,
and an unresolvable `m` is an ImportError citing `m`), and that single
Import — placed where the first plain member occurred — is reused across
all plain-member names of the statement, accumulating one MEMBER binding
(alias → remote name) per such name in statement order.  Stated as
equality of `visit_ImportFrom` with the claim-shaped reference
`specFrom`. -/
theorem c4_from_member_imports (r : String → Option String) (node : ImportFromNode)
    (hw : node.names.any (fun a => a.name == "*") = false)
    (hf : (node.module == "__future__") = false)
    (hn : strStarts NATIVE_MODULE_PRE node.module = false) :
    visit_ImportFrom r node = specFrom r node.module node.lineno node.names := by
  rw [visit_ImportFrom]
  simp only [hw, hf, hn, Bool.false_eq_true, if_false]
  rw [goFrom_none r node node.names []]
  rcases hs : specFrom r node.module node.lineno node.names with e | l
  · rfl
  · show Except.ok ([] ++ l) = _
    rw [List.nil_append]

/-- Witness for C4 at `from pkg import CONST, submod` on line 5, where
`pkg.submod` and `pkg` resolve but `pkg.CONST` does not. -/
theorem c4_from_member_imports_witness :
    visit_ImportFrom
      (fun s => if s == "pkg.submod" then some "pkg.submod"
                else if s == "pkg" then some "pkg" else none)
      ⟨5, "pkg", [⟨"CONST", none⟩, ⟨"submod", none⟩]⟩
    = specFrom
      (fun s => if s == "pkg.submod" then some "pkg.submod"
                else if s == "pkg" then some "pkg" else none)
      "pkg" 5 [⟨"CONST", none⟩, ⟨"submod", none⟩] :=
  c4_from_member_imports
    (fun s => if s == "pkg.submod" then some "pkg.submod"
              else if s == "pkg" then some "pkg" else none)
    ⟨5, "pkg", [⟨"CONST", none⟩, ⟨"submod", none⟩]⟩ (by decide) (by decide) (by decide)

end Grumpy
